import Mathlib

/-!
Verification of the extension package lifecycle manager
(class CRExtensionFS, src/unnamed/part_000) against its specification.

The development shallowly embeds the JavaScript source:
* node-semver (v5, strict mode) parsing and comparison, as used through
  semver.valid and semver.gt;
* path.posix.join segment normalization, for the path-construction claims;
* a filesystem state for the fixed installation root, with explicit
  state passing for the mutating operations;
* the methods of CRExtensionFS, translated line by line from the source.

Fallible JavaScript code (functions that can throw) is embedded with
Except; try/catch blocks become total matches on the Except value.
All string primitives are defined by structural recursion on the character
list so that every definition evaluates inside the kernel.
-/

/- ================================================================
   JavaScript string primitives (structural, kernel-computable)
   ================================================================ -/

/-- Whitespace for the JavaScript trim. -/
def jsSpace (c : Char) : Bool :=
  c.isWhitespace || c == '\x0b' || c == '\x0c'

/-- JavaScript String.prototype.trim. -/
def jsTrim (s : String) : String :=
  String.mk (((s.data.dropWhile jsSpace).reverse.dropWhile jsSpace).reverse)

def splitCharAux (sep : Char) : List Char → List Char → List String
  | [], acc => [String.mk acc.reverse]
  | c :: cs, acc =>
    if c == sep then String.mk acc.reverse :: splitCharAux sep cs []
    else splitCharAux sep cs (c :: acc)

/-- JavaScript String.prototype.split with a one-character separator; the
source only ever splits on single characters. The empty string splits to a
singleton list holding the empty string, as in JavaScript. -/
def splitOnChar (sep : Char) (s : String) : List String :=
  splitCharAux sep s.data []

/-- JavaScript Array.prototype.join with a one-character separator. -/
def joinChar (sep : Char) : List String → String
  | [] => ""
  | [s] => s
  | s :: rest => s ++ String.singleton sep ++ joinChar sep rest

def natToStrCore : Nat → Nat → List Char → List Char
  | 0, _, acc => acc
  | fuel + 1, n, acc =>
    let d := Char.ofNat (48 + n % 10)
    if n < 10 then d :: acc else natToStrCore fuel (n / 10) (d :: acc)

/-- Decimal rendering of a natural number (JavaScript number-to-string for
the integers appearing here). -/
def natToStr (n : Nat) : String :=
  String.mk (natToStrCore (n + 1) n [])

example : splitOnChar '_' "1.0.0_r1" = ["1.0.0", "r1"] := by decide
example : splitOnChar '_' "__uninstall__" = ["", "", "uninstall", "", ""] := by decide
example : splitOnChar '_' "" = [""] := by decide
example : joinChar '_' ["a", "b_c"] = "a_b_c" := by decide
example : natToStr 120 = "120" := by decide

/- ================================================================
   node-semver (v5.x, strict mode), as consumed by the source through
   semver.valid and semver.gt.
   ================================================================ -/

/-- A prerelease identifier: node-semver keeps a numeric identifier below
Number.MAX_SAFE_INTEGER as a number and every other identifier as a string. -/
inductive PreId where
  | num (n : Nat)
  | alnum (s : String)
deriving DecidableEq, Repr

/-- A parsed semantic version. Build metadata is validated during parsing but is
not part of the value, matching the version property of node-semver. -/
structure SemVer where
  major : Nat
  minor : Nat
  patch : Nat
  pre : List PreId
deriving DecidableEq, Repr

def MAX_SAFE_INTEGER : Nat := 9007199254740991

/-- Decimal value of an all-digit string. -/
def strToNat (s : String) : Nat :=
  s.data.foldl (fun a c => a * 10 + (c.toNat - 48)) 0

/-- NUMERICIDENTIFIER of the strict semver grammar: 0, or digits without a
leading zero. -/
def isNumericIdent (s : String) : Bool :=
  !(s == "") && s.data.all Char.isDigit && (s == "0" || !(s.data.headD ' ' == '0'))

/-- A main-version number: a numeric identifier whose value does not exceed
MAX_SAFE_INTEGER (the SemVer constructor throws above it). -/
def parseMainNum (s : String) : Option Nat :=
  if isNumericIdent s then
    let n := strToNat s
    if n ≤ MAX_SAFE_INTEGER then some n else none
  else none

/-- Characters allowed in prerelease and build identifiers. -/
def isIdentChar (c : Char) : Bool :=
  c.isDigit || c.isAlpha || c == '-'

/-- One prerelease identifier: either numeric (no leading zero; kept as a
number when below MAX_SAFE_INTEGER, as a string otherwise) or alphanumeric
containing at least one non-digit. -/
def parsePreId (s : String) : Option PreId :=
  if s == "" then none
  else if s.data.all Char.isDigit then
    if s == "0" || !(s.data.headD ' ' == '0') then
      let n := strToNat s
      some (if n < MAX_SAFE_INTEGER then PreId.num n else PreId.alnum s)
    else none
  else if s.data.all isIdentChar then some (PreId.alnum s) else none

/-- BUILDIDENTIFIER: one or more identifier characters. -/
def isBuildIdent (s : String) : Bool :=
  !(s == "") && s.data.all isIdentChar

/-- Parse the part before build metadata: MAJOR.MINOR.PATCH with an optional
prerelease after the first hyphen. -/
def parseCore (core : String) : Option SemVer :=
  match splitOnChar '-' core with
  | [] => none
  | main :: rest =>
    match splitOnChar '.' main with
    | [ma, mi, pa] =>
      match parseMainNum ma, parseMainNum mi, parseMainNum pa with
      | some major, some minor, some patch =>
        if rest.isEmpty then some ⟨major, minor, patch, []⟩
        else
          match (splitOnChar '.' (joinChar '-' rest)).mapM parsePreId with
          | some ids => some ⟨major, minor, patch, ids⟩
          | none => none
      | _, _, _ => none
    | _ => none

/-- Strict semver parse as in the node-semver v5 SemVer constructor: length
limit on the raw input, trim, one optional leading v, optional build metadata
after a plus sign. -/
def parseSemVer (input : String) : Option SemVer :=
  if input.data.length > 256 then none
  else
    let t := jsTrim input
    let t := match t.data with
      | 'v' :: rest => String.mk rest
      | _ => t
    match splitOnChar '+' t with
    | [core] => parseCore core
    | [core, build] =>
      if ((splitOnChar '.' build).all isBuildIdent) then parseCore core else none
    | _ => none

def preIdToString : PreId → String
  | PreId.num n => natToStr n
  | PreId.alnum s => s

/-- The canonical version string (the version property of a parsed SemVer):
MAJOR.MINOR.PATCH with the prerelease identifiers joined by dots after a
hyphen; build metadata is dropped. -/
def formatSemVer (v : SemVer) : String :=
  let mainStr := natToStr v.major ++ "." ++ natToStr v.minor ++ "." ++ natToStr v.patch
  if v.pre.isEmpty then mainStr
  else mainStr ++ "-" ++ joinChar '.' (v.pre.map preIdToString)

/-- semver.valid: the canonical version string on success, null on failure. -/
def semverValid (s : String) : Option String :=
  (parseSemVer s).map formatSemVer

def cmpChars : List Char → List Char → Ordering
  | [], [] => Ordering.eq
  | [], _ :: _ => Ordering.lt
  | _ :: _, [] => Ordering.gt
  | a :: as, b :: bs =>
    if a.toNat < b.toNat then Ordering.lt
    else if b.toNat < a.toNat then Ordering.gt
    else cmpChars as bs

/-- Comparison of two prerelease identifiers: numbers compare numerically,
a number is below any string, strings compare lexicographically. -/
def cmpPreId : PreId → PreId → Ordering
  | PreId.num a, PreId.num b => compare a b
  | PreId.num _, PreId.alnum _ => Ordering.lt
  | PreId.alnum _, PreId.num _ => Ordering.gt
  | PreId.alnum a, PreId.alnum b => cmpChars a.data b.data

/-- Pairwise comparison of prerelease identifier lists; a strict prefix is
lower. -/
def cmpPreIds : List PreId → List PreId → Ordering
  | [], [] => Ordering.eq
  | [], _ :: _ => Ordering.lt
  | _ :: _, [] => Ordering.gt
  | a :: as, b :: bs =>
    match cmpPreId a b with
    | Ordering.eq => cmpPreIds as bs
    | o => o

/-- Prerelease comparison: a version without prerelease is above any version
with one; otherwise identifiers compare pairwise. -/
def comparePre : List PreId → List PreId → Ordering
  | [], [] => Ordering.eq
  | [], _ :: _ => Ordering.gt
  | _ :: _, [] => Ordering.lt
  | a :: as, b :: bs => cmpPreIds (a :: as) (b :: bs)

def compareSemVer (a b : SemVer) : Ordering :=
  match compare a.major b.major with
  | Ordering.eq =>
    match compare a.minor b.minor with
    | Ordering.eq =>
      match compare a.patch b.patch with
      | Ordering.eq => comparePre a.pre b.pre
      | o => o
    | o => o
  | o => o

/-- semver.gt on version strings. node-semver throws on an unparsable
argument; every call site in this development passes canonical outputs of
semverValid, so that case is unreachable and is mapped to false. -/
def semverGtB (a b : String) : Bool :=
  match parseSemVer a, parseSemVer b with
  | some x, some y => compareSemVer x y == Ordering.gt
  | _, _ => false

example : semverValid "1.0.0" = some "1.0.0" := by decide
example : semverValid "not-a-version" = none := by decide
example : semverValid "" = none := by decide
example : semverValid "v2.1.0-alpha.1+build7" = some "2.1.0-alpha.1" := by decide
example : semverValid "01.0.0" = none := by decide
example : semverGtB "1.1.0" "1.0.0" = true := by decide
example : semverGtB "1.0.0" "1.1.0" = false := by decide
example : semverGtB "1.0.0" "1.0.0-rc.1" = true := by decide

/- ================================================================
   path.posix.join over the fixed installation root (claim C3).

   The install root RuntimePaths.CHROME_EXTENSION_INSTALL_PATH is an
   absolute path, represented by its list of segments. path.join
   concatenates its arguments with slashes and then normalizes the
   result: empty and dot segments vanish and a parent segment pops the
   previous one (dropping it at the root of an absolute path).
   ================================================================ -/

/-- Slash-separated components of one path.join argument. -/
def segsOf (s : String) : List String :=
  splitOnChar '/' s

/-- Normalization fold of path.posix.join, applied to the argument segments
with the (already normalized, absolute) root segments as the start state. -/
def joinAbs (root : List String) (parts : List String) : List String :=
  parts.foldl
    (fun acc seg =>
      if seg == "" then acc
      else if seg == "." then acc
      else if seg == ".." then acc.dropLast
      else acc ++ [seg])
    root

/-- CRExtensionFS.resolvePath (part_000 lines 93-95):
path.join(CHROME_EXTENSION_INSTALL_PATH, extensionId, versionString),
as the segment list of the resulting path. -/
def resolvePath (root : List String) (extensionId versionString : String) : List String :=
  joinAbs root (segsOf extensionId ++ segsOf versionString)

/-- The path read by CRExtensionFS.readManifest (part_000 line 34):
path.join(CHROME_EXTENSION_INSTALL_PATH, extensionId, versionString,
the manifest file name), as the segment list of the resulting path. -/
def readManifestPath (root : List String) (extensionId versionString : String) : List String :=
  joinAbs root (segsOf extensionId ++ segsOf versionString ++ ["manifest.json"])

example : resolvePath ["opt", "wavebox", "ext"] "ext1" "1.0.0_r1" =
    ["opt", "wavebox", "ext", "ext1", "1.0.0_r1"] := by decide
example : resolvePath ["opt", "wavebox", "ext"] ".." "x" = ["opt", "wavebox", "x"] := by decide

/- ================================================================
   Filesystem state for the installation root.

   The structured state mirrors the fixed layout the source works in:
   the install root holds one directory per extension id; an extension
   root holds named entries (version directories, the uninstall
   sentinel file, arbitrary junk); a version directory may hold a
   parsable manifest.json and _locales/<locale>/messages.json bundles.
   Entry names are treated as single path segments here; the segment
   semantics of path.join itself is modelled above for claim C3.
   ================================================================ -/

/-- A translation bundle (_locales/<locale>/messages.json): message key to
message string. Modelled from the spec: the CRExtensionI18n model that
consumes these bundles is not under src/. -/
abbrev Messages := List (String × String)

/-- Modelled from the spec: CRExtensionI18n.translatedManifest substitutes
placeholder tokens in manifest values; a manifest string value is therefore
represented pre-tokenized into literal runs and placeholder tokens, a
placeholder carrying its message key and its literal fallback text. -/
inductive MToken where
  | lit (s : String)
  | msg (key : String) (fallback : String)
deriving DecidableEq, Repr

/-- A parsed manifest.json. The source consumes three fields:
wavebox_extension_id, version and default_locale; a field whose JSON value is
absent or not a string is none, which a strict equality against a string can
never match, as in JavaScript. All other fields are carried opaquely. -/
structure Manifest where
  wavebox_extension_id : Option String := none
  version : Option String := none
  default_locale : Option String := none
  fields : List (String × List MToken) := []
deriving DecidableEq, Repr

/-- One named entry of an extension root directory: a version directory, the
sentinel file, or junk. manifest is the parsed content of
<entry>/manifest.json when present and parsable; locales maps a locale name
to the parsed content of <entry>/_locales/<locale>/messages.json; a missing,
unreadable or malformed file is simply absent, both cases throw in the
JavaScript read. -/
structure EntryData where
  manifest : Option Manifest := none
  locales : List (String × Messages) := []
deriving DecidableEq, Repr

/-- An extension root directory: its entries, in directory-listing order. -/
structure ExtRoot where
  entries : List (String × EntryData)
deriving DecidableEq, Repr

/-- The filesystem state under the installation root.
rootReadable false makes the top-level listing fail (missing root or
permissions). removeFails lists extension ids whose root fs.remove fails
(permissions); writeFails lists extension ids for which writing the
sentinel file fails. -/
structure FS where
  rootReadable : Bool := true
  exts : List (String × ExtRoot)
  removeFails : List String := []
  writeFails : List String := []
deriving DecidableEq, Repr

/-- The extension root directory for an id, if it exists. -/
def findExt (fs : FS) (extensionId : String) : Option ExtRoot :=
  (fs.exts.find? (fun p => p.1 == extensionId)).map (fun p => p.2)

/-- fs.readdirSync on the install root: throws when the root is unreadable. -/
def readdirRoot (fs : FS) : Except Unit (List String) :=
  if fs.rootReadable then Except.ok (fs.exts.map (fun p => p.1))
  else Except.error ()

/-- fs.readdirSync on an extension root: throws when that directory does not
exist. -/
def readdirExt (fs : FS) (extensionId : String) : Except Unit (List String) :=
  match findExt fs extensionId with
  | some r => Except.ok (r.entries.map (fun p => p.1))
  | none => Except.error ()

/-- fs.readJsonSync on <root>/<extensionId>/<versionString>/manifest.json:
throws when any directory on the way is missing or the file is missing or
malformed. -/
def readManifestRaw (fs : FS) (extensionId versionString : String) :
    Except Unit Manifest :=
  match findExt fs extensionId with
  | none => Except.error ()
  | some r =>
    match (r.entries.find? (fun p => p.1 == versionString)).map (fun p => p.2) with
    | none => Except.error ()
    | some e =>
      match e.manifest with
      | some m => Except.ok m
      | none => Except.error ()

/-- fs.readJsonSync on
<root>/<extensionId>/<versionString>/_locales/<locale>/messages.json. -/
def readMessagesRaw (fs : FS) (extensionId versionString locale : String) :
    Except Unit Messages :=
  match findExt fs extensionId with
  | none => Except.error ()
  | some r =>
    match (r.entries.find? (fun p => p.1 == versionString)).map (fun p => p.2) with
    | none => Except.error ()
    | some e =>
      match (e.locales.find? (fun p => p.1 == locale)).map (fun p => p.2) with
      | none => Except.error ()
      | some m => Except.ok m

/-- fs.remove on an extension root (part_000 line 137): best-effort recursive
delete of <root>/<extensionId>; a failure (modelled by removeFails) leaves the
state unchanged, and removing a missing directory is already a success. -/
def removeExtRoot (fs : FS) (extensionId : String) : FS :=
  if fs.removeFails.contains extensionId then fs
  else { fs with exts := fs.exts.filter (fun p => !(p.1 == extensionId)) }

/- ================================================================
   Spec-modelled collaborators (code of this repository outside src/):
   CRExtension._sanitizePathValue_ and CRExtensionI18n.translatedManifest,
   imported by part_000 from shared/Models/CRExtension.
   ================================================================ -/

def lookupMsg (messages : Messages) (key : String) : Option String :=
  (messages.find? (fun p => p.1 == key)).map (fun p => p.2)

/-- Modelled from the spec: one substitution step of
CRExtensionI18n.translatedManifest, which is not under src/. Every
placeholder token referencing a message key is substituted with the
corresponding message string; when the key is absent the placeholder is left
as its literal fallback text. -/
def substToken (messages : Messages) : MToken → MToken
  | MToken.lit s => MToken.lit s
  | MToken.msg key fallback =>
    match lookupMsg messages key with
    | some v => MToken.lit v
    | none => MToken.msg key fallback

/-- Modelled from the spec: CRExtensionI18n.translatedManifest (not under
src/) produces a manifest variant with every placeholder substituted from the
message bundle; the identity-relevant fields are not placeholders. -/
def translatedManifest (messages : Messages) (manifest : Manifest) : Manifest :=
  { manifest with
    fields := manifest.fields.map (fun f => (f.1, f.2.map (substToken messages))) }

/-- Modelled from the spec: CRExtension._sanitizePathValue_ (not under src/)
reduces the declared default locale to a safe path segment; modelled as
keeping only alphanumeric characters, hyphens and underscores. -/
def sanitizePathValue (s : String) : String :=
  String.mk (s.data.filter (fun c => c.isAlphanum || c == '-' || c == '_'))

/- ================================================================
   CRExtensionFS (src/unnamed/part_000)
   ================================================================ -/

namespace CRExtensionFS

/-- part_000 line 7. -/
def UNINSTALL_FLAG : String := "__uninstall__"

/-- part_000 lines 18-24: the try/catch around fs.readdirSync becomes a total
match on the Except value. -/
def listInstalledExtensionIds (fs : FS) : List String :=
  match readdirRoot fs with
  | Except.ok l => l
  | Except.error _ => []

/-- part_000 lines 32-39: readJsonSync under try/catch; any failure yields the
empty document. -/
def readManifest (fs : FS) (extensionId versionString : String) : Manifest :=
  match readManifestRaw fs extensionId versionString with
  | Except.ok m => m
  | Except.error _ => {}

/-- part_000 lines 46-77, the record built at lines 61-66. The object carries
exactly these four properties; in particular it has no path property. -/
structure VersionInfo where
  extensionId : String
  version : String
  revision : String
  versionString : String
deriving DecidableEq, Repr

/-- part_000 lines 47-52: the version directory listing with its try/catch. -/
def extEntryNames (fs : FS) (extensionId : String) : List String :=
  match readdirExt fs extensionId with
  | Except.ok l => l
  | Except.error _ => []

/-- part_000 lines 46-77. The map producing undefined on a failed semver
parse followed by the truthiness filter is a filterMap; components[0] is
written as headD, sound because a JavaScript split never returns an empty
array; components.slice(1).join is joinChar on the tail. -/
def listInstalledVersions (fs : FS) (extensionId : String) : List VersionInfo :=
  let versionStrings := extEntryNames fs extensionId
  let step1 := versionStrings.filterMap (fun versionStr =>
    let components := splitOnChar '_' versionStr
    match semverValid (components.headD "") with
    | none => none
    | some version =>
      some { extensionId := extensionId
             version := version
             revision := joinChar '_' components.tail
             versionString := versionStr })
  step1.filter (fun info =>
    let manifestInfo := readManifest fs info.extensionId info.versionString
    manifestInfo.wavebox_extension_id == some info.extensionId &&
      manifestInfo.version == some info.version)

/-- part_000 lines 84-86: fs.existsSync on <rootPath>/__uninstall__, which
never throws. The source passes the extension root path; the id that
determines it is passed here. -/
def isSetForRemoval (fs : FS) (extensionId : String) : Bool :=
  match findExt fs extensionId with
  | none => false
  | some r => r.entries.any (fun p => p.1 == UNINSTALL_FLAG)

/-- part_000 lines 104-121. The manifest read at line 106 is outside any
try/catch, so its failure propagates (Except.error); the locale bundle reads
are inside the nested try/catch chain. JavaScript || treats the empty string
as falsy, hence the explicit empty check on default_locale. -/
def loadTranslatedManifest (fs : FS) (extensionId versionString locale : String) :
    Except Unit Manifest :=
  match readManifestRaw fs extensionId versionString with
  | Except.error e => Except.error e
  | Except.ok manifest =>
    let messages :=
      match readMessagesRaw fs extensionId versionString locale with
      | Except.ok m => m
      | Except.error _ =>
        let defaultLocale := sanitizePathValue
          (match manifest.default_locale with
           | some s => if s == "" then "en" else s
           | none => "en")
        match readMessagesRaw fs extensionId versionString defaultLocale with
        | Except.ok m => m
        | Except.error _ => []
    Except.ok (translatedManifest messages manifest)

/-- The JavaScript expression info.path in updateEntry (part_000 line 149)
reads a property the record built at lines 61-66 never sets, so its value is
always undefined. -/
def VersionInfo.path (_ : VersionInfo) : Option String := none

/-- fs-extra remove applied to the possibly-undefined info.path (part_000
line 149). rimraf asserts on a non-string path, so with undefined the
returned promise rejects and nothing is deleted; the state is unchanged. No
call in this development ever passes a defined path (VersionInfo.path is
always none), so the defined-path branch, which would delete the named
directory, is left as the identity as well and no theorem depends on it. -/
def fsRemoveOpt (fs : FS) (p : Option String) : FS :=
  match p with
  | none => fs
  | some _ => fs

/-- JavaScript Array.prototype.sort modelled as insertion sort with the
boolean comparator precedes, true when the first argument must come before
the second. The source comparator (line 145) returns -1 exactly when
semver.gt holds, so precedes is that test; for elements neither of which
precedes the other the order is implementation-defined in JavaScript, and
this model keeps the scan order. -/
def jsSortInsert {α : Type} (precedes : α → α → Bool) (a : α) :
    List α → List α
  | [] => [a]
  | b :: l => if precedes a b then a :: b :: l else b :: jsSortInsert precedes a l

def jsSort {α : Type} (precedes : α → α → Bool) : List α → List α
  | [] => []
  | a :: l => jsSortInsert precedes a (jsSort precedes l)

/-- part_000 lines 132-157. The two length tests are written as the
equivalent match on the list; the forEach over remove is the foldl; the empty
sorted case is unreachable because sorting preserves length. -/
def updateEntry (fs : FS) (extensionId : String) : FS × Option VersionInfo :=
  if isSetForRemoval fs extensionId then
    (removeExtRoot fs extensionId, none)
  else
    let versions := listInstalledVersions fs extensionId
    if 1 < versions.length then
      let sortedVersions :=
        jsSort (fun a b => semverGtB a.version b.version) versions
      match sortedVersions with
      | [] => (fs, none)
      | latest :: remove =>
        (remove.foldl (fun s info => fsRemoveOpt s info.path) fs, some latest)
    else
      match versions with
      | [v] => (fs, some v)
      | _ => (fs, none)

/-- The list remove of candidates updateEntry passes to fs.remove (part_000
lines 147-150); empty in every branch that calls fs.remove on nothing. -/
def removeTargets (fs : FS) (extensionId : String) : List VersionInfo :=
  let versions := listInstalledVersions fs extensionId
  if 1 < versions.length then
    (jsSort (fun a b => semverGtB a.version b.version) versions).tail
  else []

/-- part_000 lines 167-169: fs.writeFileSync of the sentinel, with no
try/catch, so a failed write (missing extension root or permissions, modelled
by writeFails) propagates to the caller. -/
def setForRemoval (fs : FS) (extensionId : String) : Except Unit FS :=
  if fs.writeFails.contains extensionId then Except.error ()
  else
    match findExt fs extensionId with
    | none => Except.error ()
    | some _ =>
      Except.ok { fs with exts := fs.exts.map (fun p =>
        if p.1 == extensionId then
          (p.1, if p.2.entries.any (fun q => q.1 == UNINSTALL_FLAG) then p.2
                else ⟨p.2.entries ++ [(UNINSTALL_FLAG, {})]⟩)
        else p) }

end CRExtensionFS

/- ================================================================
   Concrete states used by the evaluation theorems and witnesses.
   ================================================================ -/

namespace CRExtensionFS

/-- A manifest declaring the given extension id and version. -/
def mkManifest (id ver : String) : Manifest :=
  { wavebox_extension_id := some id, version := some ver }

/-- The concrete scenario of the specification: extension ext1 with version
directories 1.0.0_r1 and 1.1.0_r1, both manifests matching, no sentinel. -/
def fsTwo : FS :=
  { rootReadable := true
    exts := [("ext1", ⟨[
      ("1.0.0_r1", { manifest := some (mkManifest "ext1" "1.0.0") }),
      ("1.1.0_r1", { manifest := some (mkManifest "ext1" "1.1.0") })]⟩)]
    removeFails := []
    writeFails := [] }

def v110 : VersionInfo :=
  { extensionId := "ext1", version := "1.1.0", revision := "r1",
    versionString := "1.1.0_r1" }

def v100 : VersionInfo :=
  { extensionId := "ext1", version := "1.0.0", revision := "r1",
    versionString := "1.0.0_r1" }

example : listInstalledVersions fsTwo "ext1" = [v100, v110] := by decide
example : updateEntry fsTwo "ext1" = (fsTwo, some v110) := by decide

/-- An extension whose root carries the removal sentinel next to a valid
version directory. -/
def fsFlagged : FS :=
  { rootReadable := true
    exts := [("ext2", ⟨[
      ("1.0.0_r1", { manifest := some (mkManifest "ext2" "1.0.0") }),
      ("__uninstall__", {})]⟩)]
    removeFails := []
    writeFails := [] }

example : isSetForRemoval fsFlagged "ext2" = true := by decide
example : updateEntry fsFlagged "ext2" =
    ({ fsTwo with exts := [] }, none) := by decide

/-- An extension with exactly one valid version directory, one directory
whose name is not a semantic version, and one version directory whose
manifest disagrees with its name. -/
def fsOne : FS :=
  { rootReadable := true
    exts := [("ext3", ⟨[
      ("not-a-version", {}),
      ("2.0.0_abc", { manifest := some (mkManifest "ext3" "1.9.9") }),
      ("1.2.3_r7", { manifest := some (mkManifest "ext3" "1.2.3") })]⟩)]
    removeFails := []
    writeFails := [] }

def v123 : VersionInfo :=
  { extensionId := "ext3", version := "1.2.3", revision := "r7",
    versionString := "1.2.3_r7" }

example : listInstalledVersions fsOne "ext3" = [v123] := by decide
example : updateEntry fsOne "ext3" = (fsOne, some v123) := by decide

/-- An unreadable install root with no extension directories. -/
def fsBare : FS :=
  { rootReadable := false, exts := [], removeFails := [], writeFails := [] }

/-- A version directory whose manifest is readable, declares no
default_locale, and has a French bundle only. -/
def fsLoc : FS :=
  { rootReadable := true
    exts := [("ext4", ⟨[
      ("1.0.0_r1",
        { manifest := some { mkManifest "ext4" "1.0.0" with
            fields := [("name", [MToken.msg "appName" "__MSG_appName__"])] }
          locales := [("fr", [("appName", "Exemple")])] })]⟩)]
    removeFails := []
    writeFails := [] }

example : loadTranslatedManifest fsLoc "ext4" "1.0.0_r1" "fr" =
    Except.ok { mkManifest "ext4" "1.0.0" with
      fields := [("name", [MToken.lit "Exemple"])] } := rfl
example : loadTranslatedManifest fsLoc "ext4" "1.0.0_r1" "de" =
    Except.ok { mkManifest "ext4" "1.0.0" with
      fields := [("name", [MToken.msg "appName" "__MSG_appName__"])] } := rfl
example : loadTranslatedManifest fsLoc "ext4" "2.0.0_r1" "fr" =
    Except.error () := rfl

end CRExtensionFS

/- ================================================================
   Helper lemmas
   ================================================================ -/

namespace CRExtensionFS

theorem jsSortInsert_perm {α : Type} (p : α → α → Bool) (a : α) (l : List α) :
    (jsSortInsert p a l).Perm (a :: l) := by
  induction l with
  | nil => exact List.Perm.refl _
  | cons b t ih =>
    simp only [jsSortInsert]
    split
    · exact List.Perm.refl _
    · exact (ih.cons b).trans (List.Perm.swap a b t)

theorem jsSort_perm {α : Type} (p : α → α → Bool) (l : List α) :
    (jsSort p l).Perm l := by
  induction l with
  | nil => exact List.Perm.refl _
  | cons a t ih => exact (jsSortInsert_perm p a (jsSort p t)).trans (ih.cons a)

/-- The removal loop of the upgrade branch never changes the state: every
target carries an undefined path. -/
theorem foldl_fsRemoveOpt (l : List VersionInfo) (fs : FS) :
    l.foldl (fun s info => fsRemoveOpt s info.path) fs = fs := by
  induction l generalizing fs with
  | nil => rfl
  | cons a t ih =>
    simp only [List.foldl_cons]
    exact ih fs

theorem find?_filter_ne {β : Type} (l : List (String × β)) (id : String) :
    (l.filter (fun p => !(p.1 == id))).find? (fun p => p.1 == id) = none := by
  induction l with
  | nil => rfl
  | cons a t ih =>
    by_cases h : a.1 == id
    · simp only [List.filter_cons, h, Bool.not_true, Bool.false_eq_true, if_false]
      exact ih
    · simp only [List.filter_cons, h, Bool.not_false, if_true, List.find?_cons,
        Bool.false_eq_true]
      exact ih

theorem findExt_removeExtRoot (fs : FS) (id : String)
    (h : fs.removeFails.contains id = false) :
    findExt (removeExtRoot fs id) id = none := by
  have hstate : removeExtRoot fs id =
      { fs with exts := fs.exts.filter (fun p => !(p.1 == id)) } := by
    unfold removeExtRoot
    simp only [h, Bool.false_eq_true, if_false]
  rw [hstate]
  unfold findExt
  rw [find?_filter_ne]
  rfl

theorem isSetForRemoval_of_findExt_none {fs : FS} {id : String}
    (h : findExt fs id = none) : isSetForRemoval fs id = false := by
  simp [isSetForRemoval, h]

theorem listInstalledVersions_of_findExt_none {fs : FS} {id : String}
    (h : findExt fs id = none) : listInstalledVersions fs id = [] := by
  simp [listInstalledVersions, extEntryNames, readdirExt, h]

theorem updateEntry_of_flagged {fs : FS} {id : String}
    (h : isSetForRemoval fs id = true) :
    updateEntry fs id = (removeExtRoot fs id, none) := by
  simp [updateEntry, h]

theorem updateEntry_of_absent {fs : FS} {id : String}
    (h1 : isSetForRemoval fs id = false)
    (h2 : listInstalledVersions fs id = []) :
    updateEntry fs id = (fs, none) := by
  simp [updateEntry, h1, h2]

theorem updateEntry_of_single {fs : FS} {id : String} {v : VersionInfo}
    (h1 : isSetForRemoval fs id = false)
    (h2 : listInstalledVersions fs id = [v]) :
    updateEntry fs id = (fs, some v) := by
  simp [updateEntry, h1, h2]

theorem updateEntry_of_many {fs : FS} {id : String}
    (h1 : isSetForRemoval fs id = false)
    (h2 : 1 < (listInstalledVersions fs id).length) :
    ∃ latest remove,
      jsSort (fun a b => semverGtB a.version b.version)
        (listInstalledVersions fs id) = latest :: remove ∧
      updateEntry fs id = (fs, some latest) := by
  obtain ⟨latest, remove, hs⟩ : ∃ l r,
      jsSort (fun a b => semverGtB a.version b.version)
        (listInstalledVersions fs id) = l :: r := by
    cases hs : jsSort (fun a b => semverGtB a.version b.version)
        (listInstalledVersions fs id) with
    | nil =>
      exfalso
      have hperm := jsSort_perm (fun a b => semverGtB a.version b.version)
        (listInstalledVersions fs id)
      rw [hs] at hperm
      rw [hperm.symm.eq_nil] at h2
      simp at h2
    | cons a b => exact ⟨a, b, rfl⟩
  refine ⟨latest, remove, hs, ?_⟩
  simp [updateEntry, h1, h2, hs, foldl_fsRemoveOpt]

theorem updateEntry_fst_of_not_flagged (fs : FS) (id : String)
    (h : isSetForRemoval fs id = false) : (updateEntry fs id).1 = fs := by
  rcases hv : listInstalledVersions fs id with _ | ⟨a, t⟩
  · rw [updateEntry_of_absent h hv]
  · cases t with
    | nil => rw [updateEntry_of_single h hv]
    | cons b t2 =>
      have h2 : 1 < (listInstalledVersions fs id).length := by
        rw [hv]; simp
      obtain ⟨latest, remove, _, heq⟩ := updateEntry_of_many h h2
      rw [heq]

end CRExtensionFS

namespace CRExtensionFS

/-- The filterMap step of listInstalledVersions determines the versionString
field: a candidate remembers the directory name it came from. -/
theorem scanStep_versionString (extId : String) (name : String) (info : VersionInfo)
    (h : (match semverValid ((splitOnChar '_' name).headD "") with
          | none => none
          | some version =>
            some { extensionId := extId
                   version := version
                   revision := joinChar '_' (splitOnChar '_' name).tail
                   versionString := name : VersionInfo }) = some info) :
    info.versionString = name := by
  cases hv : semverValid ((splitOnChar '_' name).headD "") with
  | none => rw [hv] at h; cases h
  | some version =>
    rw [hv] at h
    cases h
    rfl

/-- Membership characterization of the Version Directory Scanner: a candidate
is exactly a listed entry name whose first underscore segment parses, packed
with the canonical version and the joined revision remainder, whose manifest
declares the matching id and the matching canonical version. -/
theorem mem_listInstalledVersions_iff (fs : FS) (extId : String) (info : VersionInfo) :
    info ∈ listInstalledVersions fs extId ↔
      (info.versionString ∈ extEntryNames fs extId ∧
       info.extensionId = extId ∧
       semverValid ((splitOnChar '_' info.versionString).headD "") = some info.version ∧
       info.revision = joinChar '_' (splitOnChar '_' info.versionString).tail ∧
       (readManifest fs extId info.versionString).wavebox_extension_id = some extId ∧
       (readManifest fs extId info.versionString).version = some info.version) := by
  obtain ⟨ie, iv, ir, istr⟩ := info
  unfold listInstalledVersions
  simp only [List.mem_filter, List.mem_filterMap]
  constructor
  · rintro ⟨⟨name, hname, hf⟩, hpred⟩
    cases hv : semverValid ((splitOnChar '_' name).headD "") with
    | none => rw [hv] at hf; cases hf
    | some version =>
      rw [hv] at hf
      cases hf
      simp only [Bool.and_eq_true, beq_iff_eq] at hpred
      exact ⟨hname, rfl, hv, rfl, hpred.1, hpred.2⟩
  · rintro ⟨hname, hid, hv, hrev, hm1, hm2⟩
    subst hid
    subst hrev
    constructor
    · exact ⟨istr, hname, by rw [hv]⟩
    · simp only [Bool.and_eq_true, beq_iff_eq]
      exact ⟨hm1, hm2⟩

/-- When directory-entry names are unique, the scanner output has no
duplicate candidates. -/
theorem nodup_listInstalledVersions (fs : FS) (extId : String)
    (h : (extEntryNames fs extId).Nodup) :
    (listInstalledVersions fs extId).Nodup := by
  unfold listInstalledVersions
  apply List.Nodup.filter
  apply List.Nodup.filterMap ?_ h
  intro a a' b hb hb'
  rw [Option.mem_def] at hb hb'
  have h1 := scanStep_versionString extId a b hb
  have h2 := scanStep_versionString extId a' b hb'
  rw [← h1, ← h2]

theorem substToken_nil (t : MToken) : substToken [] t = t := by
  cases t <;> rfl

theorem map_substToken_nil (l : List MToken) : l.map (substToken []) = l := by
  induction l with
  | nil => rfl
  | cons a t ih => simp [substToken_nil, ih]

/-- Substituting from the empty bundle leaves the manifest unchanged. -/
theorem translatedManifest_nil (m : Manifest) : translatedManifest [] m = m := by
  unfold translatedManifest
  have hf : m.fields.map (fun f => (f.1, f.2.map (substToken []))) = m.fields := by
    induction m.fields with
    | nil => rfl
    | cons a t ih => simp [map_substToken_nil, ih]
  rw [hf]

/-- A segment surviving path normalization: nonempty and not the dot. -/
def cleanSeg (s : String) : Bool := !(s == "") && !(s == ".")

/-- Without parent segments, the path.join normalization only drops empty and
dot segments and appends the rest under the start state. -/
theorem joinAbs_no_parent (root : List String) (parts : List String)
    (h : parts.all (fun s => !(s == "..")) = true) :
    joinAbs root parts = root ++ parts.filter cleanSeg := by
  induction parts generalizing root with
  | nil => simp [joinAbs]
  | cons a t ih =>
    simp only [List.all_cons, Bool.and_eq_true] at h
    obtain ⟨ha, ht⟩ := h
    show joinAbs
      (if a == "" then root
       else if a == "." then root
       else if a == ".." then root.dropLast
       else root ++ [a]) t = root ++ List.filter cleanSeg (a :: t)
    by_cases h0 : a == ""
    · simp only [h0, if_true, List.filter_cons, cleanSeg, h0, Bool.not_true,
        Bool.false_and, Bool.false_eq_true, if_false]
      exact ih root ht
    · by_cases h1 : a == "."
      · simp only [h0, h1, Bool.false_eq_true, if_false, if_true, List.filter_cons,
          cleanSeg, Bool.not_true, Bool.and_false, Bool.false_eq_true]
        exact ih root ht
      · have h2 : (a == "..") = false := by
          cases hc : a == ".." with
          | false => rfl
          | true => rw [hc] at ha; cases ha
        simp only [h0, h1, h2, Bool.false_eq_true, if_false, List.filter_cons,
          cleanSeg, h0, h1, Bool.not_false, Bool.and_self, if_true]
        rw [ih (root ++ [a]) ht, List.append_assoc]
        rfl

end CRExtensionFS

/- ================================================================
   Claim theorems
   ================================================================ -/

namespace CRExtensionFS

/-- C1: evaluation of the upgrade branch at the concrete scenario of the
specification. With two valid distinct versions and no sentinel, updateEntry
does return the semver-maximal candidate 1.1.0, but it deletes nothing: the
removal loop calls fs.remove(info.path) although the candidate records built
at part_000 lines 61-66 carry no path property (the doc comment at line 44
promises one), so both version directories remain on disk after the call,
against the claim that exactly one remains. -/
theorem updateEntry_upgrade_deletes_nothing :
    (listInstalledVersions fsTwo "ext1").length = 2 ∧
    isSetForRemoval fsTwo "ext1" = false ∧
    updateEntry fsTwo "ext1" = (fsTwo, some v110) ∧
    extEntryNames (updateEntry fsTwo "ext1").1 "ext1" = ["1.0.0_r1", "1.1.0_r1"] ∧
    listInstalledVersions (updateEntry fsTwo "ext1").1 "ext1" = [v100, v110] := by
  refine ⟨by decide, by decide, by decide, by decide, by decide⟩

/-- C2 counterexample: the manifest read at part_000 line 106 is outside any
try/catch, so loadTranslatedManifest propagates a fault whenever the
requested version directory or its manifest.json is missing or malformed,
against the claim that it never propagates one. -/
theorem loadTranslatedManifest_fault :
    loadTranslatedManifest fsLoc "ext4" "2.0.0_r1" "fr" = Except.error () := rfl

/-- C2 amended: provided the manifest file itself is readable, the fallback
chain never faults: a readable requested-locale bundle is used; otherwise the
bundle of the declared default locale (en when undeclared or empty) is used;
otherwise the empty bundle is used, in which case the manifest is returned
with no substitution applied. -/
theorem loadTranslatedManifest_fallback (fs : FS) (id ver loc : String) (m : Manifest)
    (h : readManifestRaw fs id ver = Except.ok m) :
    (∀ b, readMessagesRaw fs id ver loc = Except.ok b →
       loadTranslatedManifest fs id ver loc = Except.ok (translatedManifest b m)) ∧
    (readMessagesRaw fs id ver loc = Except.error () →
      ∀ b, readMessagesRaw fs id ver (sanitizePathValue
          (match m.default_locale with
           | some s => if s == "" then "en" else s
           | none => "en")) = Except.ok b →
        loadTranslatedManifest fs id ver loc = Except.ok (translatedManifest b m)) ∧
    (readMessagesRaw fs id ver loc = Except.error () →
      readMessagesRaw fs id ver (sanitizePathValue
          (match m.default_locale with
           | some s => if s == "" then "en" else s
           | none => "en")) = Except.error () →
      loadTranslatedManifest fs id ver loc = Except.ok m) := by
  refine ⟨?_, ?_, ?_⟩
  · intro b hb
    simp only [loadTranslatedManifest, h, hb]
  · intro hl b hb
    simp only [loadTranslatedManifest, h, hl, hb]
  · intro hl hd
    simp only [loadTranslatedManifest, h, hl, hd]
    rw [translatedManifest_nil]

/-- The manifest stored in fsLoc. -/
def m4 : Manifest :=
  { wavebox_extension_id := some "ext4", version := some "1.0.0",
    fields := [("name", [MToken.msg "appName" "__MSG_appName__"])] }

/-- C2 witness: concrete runs of both the requested-locale branch and the
worst-case branch of the fallback theorem. -/
theorem loadTranslatedManifest_fallback_witness :
    loadTranslatedManifest fsLoc "ext4" "1.0.0_r1" "fr" =
      Except.ok (translatedManifest [("appName", "Exemple")] m4) ∧
    loadTranslatedManifest fsLoc "ext4" "1.0.0_r1" "de" = Except.ok m4 :=
  ⟨(loadTranslatedManifest_fallback fsLoc "ext4" "1.0.0_r1" "fr" m4 rfl).1
      [("appName", "Exemple")] rfl,
   (loadTranslatedManifest_fallback fsLoc "ext4" "1.0.0_r1" "de" m4 rfl).2.2 rfl rfl⟩

/-- C3 counterexample: a parent-directory component is not rejected and
escapes the installation root: with extension id .. the resolved path leaves
the root entirely. -/
theorem resolvePath_escape :
    resolvePath ["opt", "wavebox", "ext"] ".." "x" = ["opt", "wavebox", "x"] ∧
    ¬ (["opt", "wavebox", "ext"] <+: resolvePath ["opt", "wavebox", "ext"] ".." "x") := by
  refine ⟨by decide, ?_⟩
  rintro ⟨t, ht⟩
  have hx : resolvePath ["opt", "wavebox", "ext"] ".." "x" = ["opt", "wavebox", "x"] := by
    decide
  rw [hx] at ht
  have h4 := congrArg (fun l => l.getD 2 "") ht
  simp at h4

/-- C3 amended: the two arguments are joined under the fixed root by
path.join normalization; when no slash-separated component of either argument
is the parent-directory segment, the root is a path prefix of the result of
resolvePath and of the manifest path read by readManifest, so the arguments
can never name a path outside the root; parent-directory components are not
rejected, and they can escape the root. -/
theorem resolvePath_under_root (root : List String) (extId verStr : String)
    (h1 : (segsOf extId).all (fun s => !(s == "..")) = true)
    (h2 : (segsOf verStr).all (fun s => !(s == "..")) = true) :
    root <+: resolvePath root extId verStr ∧
    root <+: readManifestPath root extId verStr := by
  have hall : ((segsOf extId ++ segsOf verStr).all (fun s => !(s == ".."))) = true := by
    rw [List.all_append, h1, h2]
    rfl
  have hall2 : ((segsOf extId ++ segsOf verStr ++ ["manifest.json"]).all
      (fun s => !(s == ".."))) = true := by
    rw [List.all_append, hall]
    decide
  exact ⟨⟨_, (joinAbs_no_parent root _ hall).symm⟩,
         ⟨_, (joinAbs_no_parent root _ hall2).symm⟩⟩

/-- C3 witness: a concrete benign id and version stay under the root. -/
theorem resolvePath_under_root_witness :
    ((segsOf "ext1").all (fun s => !(s == "..")) = true) ∧
    ((segsOf "1.0.0_r1").all (fun s => !(s == "..")) = true) ∧
    (["r"] <+: resolvePath ["r"] "ext1" "1.0.0_r1") :=
  ⟨by decide, by decide,
   (resolvePath_under_root ["r"] "ext1" "1.0.0_r1" (by decide) (by decide)).1⟩

/-- C4: with the sentinel present updateEntry performs the best-effort
recursive delete of the extension root and returns the removed outcome
(undefined), for every state and so for any number and shape of version
directories, with no version inspection; when the delete is permitted the
root no longer exists afterwards. -/
theorem updateEntry_removal (fs : FS) (id : String)
    (h : isSetForRemoval fs id = true) :
    updateEntry fs id = (removeExtRoot fs id, none) ∧
    (fs.removeFails.contains id = false →
      findExt (updateEntry fs id).1 id = none) := by
  refine ⟨updateEntry_of_flagged h, fun hp => ?_⟩
  rw [updateEntry_of_flagged h]
  exact findExt_removeExtRoot fs id hp

/-- C4 witness: a flagged extension with one version directory is removed
wholesale. -/
theorem updateEntry_removal_witness :
    isSetForRemoval fsFlagged "ext2" = true ∧
    fsFlagged.removeFails.contains "ext2" = false ∧
    updateEntry fsFlagged "ext2" = (removeExtRoot fsFlagged "ext2", none) ∧
    findExt (updateEntry fsFlagged "ext2").1 "ext2" = none :=
  ⟨by decide, by decide,
   (updateEntry_removal fsFlagged "ext2" (by decide)).1,
   (updateEntry_removal fsFlagged "ext2" (by decide)).2 (by decide)⟩

end CRExtensionFS

namespace CRExtensionFS

/-- C5: the Version Directory Scanner returns exactly the entries whose name
has a first underscore segment parsing as semver and whose manifest declares
the matching id and, by exact equality, the parsed canonical version; every
other entry is discarded, and a missing extension root yields the empty
sequence rather than an error. -/
theorem listInstalledVersions_exact (fs : FS) (extId : String) :
    (findExt fs extId = none → listInstalledVersions fs extId = []) ∧
    ∀ info, info ∈ listInstalledVersions fs extId ↔
      (info.versionString ∈ extEntryNames fs extId ∧
       info.extensionId = extId ∧
       semverValid ((splitOnChar '_' info.versionString).headD "") = some info.version ∧
       info.revision = joinChar '_' (splitOnChar '_' info.versionString).tail ∧
       (readManifest fs extId info.versionString).wavebox_extension_id = some extId ∧
       (readManifest fs extId info.versionString).version = some info.version) :=
  ⟨fun h => listInstalledVersions_of_findExt_none h,
   fun info => mem_listInstalledVersions_iff fs extId info⟩

/-- C5 witness: the missing-root clause at a concrete unreadable root, and
the characterization at the concrete state fsOne, whose mismatching entry
2.0.0_abc (manifest 1.9.9) and unparsable entry not-a-version are excluded. -/
theorem listInstalledVersions_exact_witness :
    findExt fsBare "nope" = none ∧
    listInstalledVersions fsBare "nope" = [] ∧
    v123 ∈ listInstalledVersions fsOne "ext3" :=
  ⟨by decide,
   (listInstalledVersions_exact fsBare "nope").1 (by decide),
   ((listInstalledVersions_exact fsOne "ext3").2 v123).2
     ⟨by decide, by decide, by decide, by decide, by decide, by decide⟩⟩

/-- C6: every read-side operation is total with its documented fallback: an
unreadable install root yields the empty id list, a failed manifest read
yields the empty document, a missing extension root yields the empty
candidate sequence and a false removal flag; setForRemoval alone propagates
a fault when its write fails (permissions or missing root). The Lean types of
the four read operations are themselves fault-free, mirroring their
enclosing try/catch or non-throwing primitive. -/
theorem read_ops_total (fs : FS) (id ver : String) :
    (fs.rootReadable = false → listInstalledExtensionIds fs = []) ∧
    (readManifestRaw fs id ver = Except.error () → readManifest fs id ver = {}) ∧
    (findExt fs id = none →
      listInstalledVersions fs id = [] ∧ isSetForRemoval fs id = false) ∧
    ((fs.writeFails.contains id = true ∨ findExt fs id = none) →
      setForRemoval fs id = Except.error ()) := by
  refine ⟨?_, ?_, ?_, ?_⟩
  · intro h
    simp [listInstalledExtensionIds, readdirRoot, h]
  · intro h
    simp [readManifest, h]
  · intro h
    exact ⟨listInstalledVersions_of_findExt_none h, isSetForRemoval_of_findExt_none h⟩
  · rintro (h | h)
    · unfold setForRemoval
      rw [h]
      rfl
    · cases hw : fs.writeFails.contains id with
      | true =>
        unfold setForRemoval
        rw [hw]
        rfl
      | false =>
        unfold setForRemoval
        rw [hw, h]
        rfl

/-- C6 witness: the unreadable empty root exercises every fallback and the
failing write. -/
theorem read_ops_total_witness :
    fsBare.rootReadable = false ∧
    listInstalledExtensionIds fsBare = [] ∧
    readManifest fsBare "e" "v" = {} ∧
    listInstalledVersions fsBare "e" = [] ∧
    isSetForRemoval fsBare "e" = false ∧
    setForRemoval fsBare "e" = Except.error () :=
  ⟨by decide,
   (read_ops_total fsBare "e" "v").1 (by decide),
   (read_ops_total fsBare "e" "v").2.1 rfl,
   ((read_ops_total fsBare "e" "v").2.2.1 (by decide)).1,
   ((read_ops_total fsBare "e" "v").2.2.1 (by decide)).2,
   (read_ops_total fsBare "e" "v").2.2.2 (Or.inr (by decide))⟩

/-- C7: with exactly one valid candidate and no sentinel, updateEntry returns
that candidate and the state is unchanged, hence any directory listing taken
before and after the call is identical. -/
theorem updateEntry_unchanged (fs : FS) (id : String) (v : VersionInfo)
    (h1 : isSetForRemoval fs id = false)
    (h2 : listInstalledVersions fs id = [v]) :
    updateEntry fs id = (fs, some v) :=
  updateEntry_of_single h1 h2

/-- C7 witness: the single-candidate state fsOne. -/
theorem updateEntry_unchanged_witness :
    isSetForRemoval fsOne "ext3" = false ∧
    listInstalledVersions fsOne "ext3" = [v123] ∧
    updateEntry fsOne "ext3" = (fsOne, some v123) :=
  ⟨by decide, by decide,
   updateEntry_unchanged fsOne "ext3" v123 (by decide) (by decide)⟩

end CRExtensionFS

namespace CRExtensionFS

/-- C8: in a pass without the sentinel nothing at all is deleted (the state
is returned unchanged, so in particular an invalid directory survives every
upgrade pass); the candidates targeted for deletion are all members of the
valid candidate list; with unique entry names the survivor is never among
them; and an entry whose name fails the semver parse or whose manifest fails
the id or version match never appears among the candidates. -/
theorem invalid_dirs_never_deleted (fs : FS) (id : String)
    (h1 : isSetForRemoval fs id = false)
    (h2 : (extEntryNames fs id).Nodup) :
    (updateEntry fs id).1 = fs ∧
    (∀ info, info ∈ removeTargets fs id → info ∈ listInstalledVersions fs id) ∧
    (∀ latest, (updateEntry fs id).2 = some latest → latest ∉ removeTargets fs id) ∧
    (∀ name, name ∈ extEntryNames fs id →
      (semverValid ((splitOnChar '_' name).headD "") = none ∨
       (readManifest fs id name).wavebox_extension_id ≠ some id ∨
       (readManifest fs id name).version ≠ semverValid ((splitOnChar '_' name).headD "")) →
      ∀ info, info ∈ listInstalledVersions fs id → info.versionString ≠ name) := by
  refine ⟨updateEntry_fst_of_not_flagged fs id h1, ?_, ?_, ?_⟩
  · intro info hmem
    unfold removeTargets at hmem
    by_cases hlen : 1 < (listInstalledVersions fs id).length
    · rw [if_pos hlen] at hmem
      have hperm := jsSort_perm (fun a b => semverGtB a.version b.version)
        (listInstalledVersions fs id)
      exact hperm.mem_iff.mp (List.mem_of_mem_tail hmem)
    · rw [if_neg hlen] at hmem
      cases hmem
  · intro latest hl hmem
    unfold removeTargets at hmem
    by_cases hlen : 1 < (listInstalledVersions fs id).length
    · rw [if_pos hlen] at hmem
      obtain ⟨l2, r2, hs, heq⟩ := updateEntry_of_many h1 hlen
      rw [heq] at hl
      have hnd : (jsSort (fun a b => semverGtB a.version b.version)
          (listInstalledVersions fs id)).Nodup :=
        ((jsSort_perm (fun a b => semverGtB a.version b.version)
          (listInstalledVersions fs id)).nodup_iff).mpr
          (nodup_listInstalledVersions fs id h2)
      rw [hs] at hnd hmem
      simp only [List.nodup_cons] at hnd
      have hlat : l2 = latest := by
        simpa using hl
      rw [hlat] at hnd
      exact hnd.1 hmem
    · rw [if_neg hlen] at hmem
      cases hmem
  · intro name hname hbad info hinfo heq
    obtain ⟨hmem, hid, hv, hrev, hm1, hm2⟩ :=
      (mem_listInstalledVersions_iff fs id info).mp hinfo
    subst heq
    rcases hbad with hb | hb | hb
    · rw [hv] at hb
      cases hb
    · exact hb hm1
    · rw [hv] at hb
      exact hb hm2

/-- C8 witness: in fsOne the pass leaves the state untouched, so the entries
not-a-version and the mismatching 2.0.0_abc survive it. -/
theorem invalid_dirs_never_deleted_witness :
    isSetForRemoval fsOne "ext3" = false ∧
    (extEntryNames fsOne "ext3").Nodup ∧
    (updateEntry fsOne "ext3").1 = fsOne :=
  ⟨by decide, by decide,
   (invalid_dirs_never_deleted fsOne "ext3" (by decide) (by decide)).1⟩

/-- C9 counterexample: with two valid distinct versions and no sentinel, a
pass returns the newer candidate but is already a fixed point that keeps both
valid version directories (the removal loop deletes nothing, see C1), so
re-running never reaches a state with fewer valid versions. -/
theorem updateEntry_no_convergence :
    updateEntry fsTwo "ext1" = (fsTwo, some v110) ∧
    updateEntry (updateEntry fsTwo "ext1").1 "ext1" = (fsTwo, some v110) ∧
    (listInstalledVersions (updateEntry fsTwo "ext1").1 "ext1").length = 2 := by
  refine ⟨by decide, by decide, by decide⟩

/-- C9 amended: updateEntry is idempotent in the strong sense that one pass
reaches a fixed point: re-running it on the resulting state returns the very
same state and the very same outcome, so no oscillation between passes is
possible; convergence to fewer valid versions, however, does not happen (see
the counterexample), because the upgrade branch deletes nothing. -/
theorem updateEntry_idempotent (fs : FS) (id : String) :
    updateEntry (updateEntry fs id).1 id = updateEntry fs id := by
  by_cases h : isSetForRemoval fs id = true
  · rw [updateEntry_of_flagged h]
    show updateEntry (removeExtRoot fs id) id = (removeExtRoot fs id, none)
    cases hf : fs.removeFails.contains id with
    | true =>
      have hfix : removeExtRoot fs id = fs := by
        unfold removeExtRoot
        rw [hf]
        rfl
      rw [hfix]
      rw [updateEntry_of_flagged h, hfix]
    | false =>
      have hfe := findExt_removeExtRoot fs id hf
      exact updateEntry_of_absent (isSetForRemoval_of_findExt_none hfe)
        (listInstalledVersions_of_findExt_none hfe)
  · have h' : isSetForRemoval fs id = false := by
      cases hb : isSetForRemoval fs id with
      | false => rfl
      | true => exact absurd hb h
    rw [updateEntry_fst_of_not_flagged fs id h']

/-- C10: updateEntry returns the undefined outcome exactly when the removal
sentinel is present or no valid version directory exists, so the Removed and
Absent outcomes are indistinguishable at the public interface; a candidate is
returned only in the one-version and many-version branches. -/
theorem updateEntry_none_iff (fs : FS) (id : String) :
    (updateEntry fs id).2 = none ↔
      (isSetForRemoval fs id = true ∨ listInstalledVersions fs id = []) := by
  by_cases h : isSetForRemoval fs id = true
  · rw [updateEntry_of_flagged h]
    simp [h]
  · have h' : isSetForRemoval fs id = false := by
      cases hb : isSetForRemoval fs id with
      | false => rfl
      | true => exact absurd hb h
    rcases hv : listInstalledVersions fs id with _ | ⟨a, t⟩
    · rw [updateEntry_of_absent h' hv]
      simp [h', hv]
    · cases t with
      | nil =>
        rw [updateEntry_of_single h' hv]
        simp [h', hv]
      | cons b t2 =>
        have h2 : 1 < (listInstalledVersions fs id).length := by
          rw [hv]
          simp
        obtain ⟨latest, remove, _, heq⟩ := updateEntry_of_many h' h2
        rw [heq]
        simp [h', hv]

end CRExtensionFS
